import Mathlib

/-!
Verification of the GlassNote client-side note/link manager (src/script.js).

JavaScript strings are embedded as `List Char`; the JS string primitives the
source relies on (`startsWith`, `includes`, `trim`, `split`, `replace`,
`toLowerCase`, `findIndex`, `find`) are given executable Lean counterparts.
Timestamps (`new Date()` values) are embedded as `Nat`; absent object fields
(`undefined`) as `Option`/`[]`.  Stateful localStorage/IndexedDB collections
are embedded as explicit `List` stores threaded through the operations.
-/

namespace GlassNote

/-- JS `String.prototype.startsWith`: does `s` start with `pat`? -/
def startsWithL : List Char → List Char → Bool
  | _, [] => true
  | [], _ :: _ => false
  | c :: cs, p :: ps => c == p && startsWithL cs ps

/-- JS `String.prototype.includes`: does `s` contain `pat` as a substring? -/
def containsSub : List Char → List Char → Bool
  | [], pat => pat.isEmpty
  | c :: rest, pat => startsWithL (c :: rest) pat || containsSub rest pat

/-- JS whitespace characters relevant to `String.prototype.trim`. -/
def isWhitespaceJS (c : Char) : Bool :=
  c == ' ' || c == '\t' || c == '\n' || c == '\r' || c == '\x0b' || c == '\x0c'

/-- JS `String.prototype.trim`. -/
def trimL (s : List Char) : List Char :=
  ((s.dropWhile isWhitespaceJS).reverse.dropWhile isWhitespaceJS).reverse

/-- JS `String.prototype.toLowerCase` (per character). -/
def toLowerL (s : List Char) : List Char := s.map Char.toLower

/-- JS `String.prototype.split` on the non-empty separator `sc :: sep`:
leftmost-first, non-overlapping, keeping empty chunks. -/
def splitSepAux (sc : Char) (sep : List Char) (s : List Char) : List (List Char) :=
  match s with
  | [] => [[]]
  | c :: rest =>
    if sc == c && startsWithL rest sep then
      [] :: splitSepAux sc sep (rest.drop sep.length)
    else
      match splitSepAux sc sep rest with
      | [] => [[c]]
      | hd :: tl => (c :: hd) :: tl
termination_by s.length
decreasing_by
  · simp only [List.length_drop, List.length_cons]; omega
  · simp only [List.length_cons]; omega

/-- JS `String.prototype.replace` with a plain-string pattern: replace the
leftmost occurrence of `pat` by `repl`, or return the string unchanged. -/
def replaceFirstL (s pat repl : List Char) : List Char :=
  match s with
  | [] => if pat.isEmpty then repl else []
  | c :: rest =>
    if startsWithL (c :: rest) pat then repl ++ (c :: rest).drop pat.length
    else c :: replaceFirstL rest pat repl

/-- JS `Array.prototype.findIndex` (as `Option Nat` instead of `-1`). -/
def findIdxL (p : α → Bool) : List α → Option Nat
  | [] => none
  | x :: xs => if p x then some 0 else (findIdxL p xs).map (· + 1)

/-- A note record: `{id?, title, content, reminder, createdAt?, updatedAt}`.
`reminder` is the raw datetime-local input string (`''` when unset);
`createdAt` is `none` when the field is absent from the object. -/
structure Note where
  id : Option Nat
  title : List Char
  content : List Char
  reminder : List Char
  createdAt : Option Nat
  updatedAt : Nat
deriving DecidableEq

/-- A link record: `{id?, title, url, createdAt?, updatedAt}`. -/
structure Link where
  id : Option Nat
  title : List Char
  url : List Char
  createdAt : Option Nat
  updatedAt : Nat
deriving DecidableEq

/-- A `showToast(message, type)` call emitted by an operation. -/
structure ToastMsg where
  message : List Char
  kind : List Char
deriving DecidableEq

/-- `formatURL` (src/script.js:875-880): prepend `http://` unless the string
already starts with `http://` or `https://`. -/
def formatURL (url : List Char) : List Char :=
  if !startsWithL url ("http://").data && !startsWithL url ("https://").data then
    ("http://").data ++ url
  else url

/-- The comparator `(a, b) => new Date(b.updatedAt) - new Date(a.updatedAt)`
passed to the (stable) `Array.prototype.sort` in `loadNotes`: a stable
insertion of `x` into a list already sorted by `updatedAt` descending. -/
def insertByUpdatedDesc (x : Note) : List Note → List Note
  | [] => [x]
  | y :: ys =>
    if x.updatedAt < y.updatedAt then y :: insertByUpdatedDesc x ys
    else x :: y :: ys

/-- `notes.sort((a, b) => new Date(b.updatedAt) - new Date(a.updatedAt))`:
stable sort by `updatedAt` descending. -/
def sortByUpdatedDesc : List Note → List Note
  | [] => []
  | x :: xs => insertByUpdatedDesc x (sortByUpdatedDesc xs)

/-- The search predicate of `loadNotes` (src/script.js:490-493):
case-insensitive substring match of the query against title or content. -/
def noteMatches (lowerQuery : List Char) (note : Note) : Bool :=
  containsSub (toLowerL note.title) lowerQuery ||
  containsSub (toLowerL note.content) lowerQuery

/-- `loadNotes(query)` (src/script.js:485-518), the store-level part common to
both backends: filter by the query when it is non-empty (JS truthiness of the
string), then sort by `updatedAt` descending.  The reminder field plays no
role here. -/
def loadNotes (query : List Char) (notes : List Note) : List Note :=
  let filtered :=
    if query.isEmpty then notes
    else notes.filter (noteMatches (toLowerL query))
  sortByUpdatedDesc filtered

/-- `saveNoteToLocalStorage(note)` (src/script.js:222-238).  With an `id`,
find the record with that id and overwrite it wholesale (silently doing
nothing when no record matches); without an `id`, assign a fresh id, stamp
`createdAt`, and append.  Returns `note.id` and the rewritten store. -/
def saveNoteToLocalStorage (note : Note) (newId now : Nat) (notes : List Note) :
    Option Nat × List Note :=
  match note.id with
  | some i =>
    match findIdxL (fun n => n.id == some i) notes with
    | some idx => (some i, notes.set idx note)
    | none => (some i, notes)
  | none =>
    let note' := { note with id := some newId, createdAt := some now }
    (some newId, notes ++ [note'])

/-- The localStorage branch of `saveNote(title, content)` (src/script.js:250-267):
build `{title, content, reminder, updatedAt}` (no `createdAt` field), copy
`currentNoteId` into `id` when a note is selected, and hand to
`saveNoteToLocalStorage`. -/
def saveNoteFlat (title content reminderVal : List Char) (currentNoteId : Option Nat)
    (newId now : Nat) (notes : List Note) : Option Nat × List Note :=
  saveNoteToLocalStorage
    { id := currentNoteId, title := title, content := content,
      reminder := reminderVal, createdAt := none, updatedAt := now }
    newId now notes

/-- IndexedDB `objectStore.put` on the notes store (keyPath `id`): replace the
record with the same key, or insert when the key is absent. -/
def putNoteIDB (note : Note) (notes : List Note) : List Note :=
  match findIdxL (fun n => n.id == note.id) notes with
  | some idx => notes.set idx note
  | none => notes ++ [note]

/-- The IndexedDB branch of `saveNote(title, content)` (src/script.js:270-297):
with a selected note, `put` `{title, content, reminder, updatedAt, id}` (again
no `createdAt` field); otherwise stamp `createdAt` and `add` under a fresh
autoincrement key. -/
def saveNoteIDB (title content reminderVal : List Char) (currentNoteId : Option Nat)
    (newKey now : Nat) (notes : List Note) : Option Nat × List Note :=
  match currentNoteId with
  | some i =>
    (some i,
     putNoteIDB
       { id := some i, title := title, content := content,
         reminder := reminderVal, createdAt := none, updatedAt := now } notes)
  | none =>
    (some newKey,
     notes ++ [{ id := some newKey, title := title, content := content,
                 reminder := reminderVal, createdAt := some now, updatedAt := now }])

/-- `saveLinkToLocalStorage(link)` (src/script.js:301-327).  With an `id`,
overwrite the record with that id (silent no-op when absent).  Without one,
look up an existing record by exact `url` equality: when found, keep its `id`
and `createdAt` and overwrite it in place; otherwise append a fresh record. -/
def saveLinkToLocalStorage (link : Link) (newId now : Nat) (links : List Link) :
    Option Nat × List Link :=
  match link.id with
  | some i =>
    match findIdxL (fun l => l.id == some i) links with
    | some idx => (some i, links.set idx link)
    | none => (some i, links)
  | none =>
    match links.find? (fun l => l.url == link.url) with
    | some existingLink =>
      let link' := { link with id := existingLink.id, createdAt := existingLink.createdAt }
      match findIdxL (fun l => l.id == link'.id) links with
      | some idx => (link'.id, links.set idx link')
      | none => (link'.id, links)
    | none =>
      let link' := { link with id := some newId, createdAt := some now }
      (some newId, links ++ [link'])

/-- The localStorage branch of `saveLink(title, url)` (src/script.js:339-352):
normalize the url with `formatURL`, build `{title, url, updatedAt}` and hand
to `saveLinkToLocalStorage`. -/
def saveLinkFlat (title url : List Char) (newId now : Nat) (links : List Link) :
    Option Nat × List Link :=
  saveLinkToLocalStorage
    { id := none, title := title, url := formatURL url,
      createdAt := none, updatedAt := now }
    newId now links

/-- The IndexedDB branch of `saveLink(title, url)` (src/script.js:355-390):
look up the unique `url` index for the normalized url; when a record exists,
keep its `id` and `createdAt` and `put`; otherwise stamp `createdAt` and `add`
under a fresh key. -/
def saveLinkIDB (title url : List Char) (newKey now : Nat) (links : List Link) :
    List Link :=
  let formattedUrl := formatURL url
  match links.find? (fun l => l.url == formattedUrl) with
  | some existingLink =>
    let link : Link :=
      { id := existingLink.id, title := title, url := formattedUrl,
        createdAt := existingLink.createdAt, updatedAt := now }
    match findIdxL (fun l => l.id == link.id) links with
    | some idx => links.set idx link
    | none => links ++ [link]
  | none =>
    links ++ [{ id := some newKey, title := title, url := formattedUrl,
                createdAt := some now, updatedAt := now }]

/-- The localStorage branch of `updateLink(id, title, url)`
(src/script.js:392-405): mutate title/url/updatedAt of the record with the
given id in place (keeping `id` and `createdAt`), or do nothing. -/
def updateLinkFlat (lid : Nat) (title url : List Char) (now : Nat)
    (links : List Link) : List Link :=
  match findIdxL (fun l => l.id == some lid) links with
  | some idx =>
    match links[idx]? with
    | some old =>
      links.set idx { old with title := title, url := formatURL url, updatedAt := now }
    | none => links
  | none => links

/-- The IndexedDB branch of `updateLink(id, title, url)` (src/script.js:408-431):
`get` the record by id, mutate title/url/updatedAt, and `put` it back. -/
def updateLinkIDB (lid : Nat) (title url : List Char) (now : Nat)
    (links : List Link) : List Link :=
  match links.find? (fun l => l.id == some lid) with
  | some old =>
    let link := { old with title := title, url := formatURL url, updatedAt := now }
    match findIdxL (fun l => l.id == link.id) links with
    | some idx => links.set idx link
    | none => links ++ [link]
  | none => links

/-- `deleteNoteFromLocalStorage(id)` (src/script.js:244-248). -/
def deleteNoteFromLocalStorage (i : Nat) (notes : List Note) : List Note :=
  notes.filter (fun note => !(note.id == some i))

/-- `deleteLinkFromLocalStorage(id)` (src/script.js:333-337). -/
def deleteLinkFromLocalStorage (i : Nat) (links : List Link) : List Link :=
  links.filter (fun link => !(link.id == some i))

/-- The mutable page state read by the UI-entry functions: the backend flags,
the current selection, and the two persisted collections. -/
structure AppState where
  dbInitialized : Bool
  useLocalStorageFallback : Bool
  currentNoteId : Option Nat
  currentLinkId : Option Nat
  notes : List Note
  links : List Link
deriving DecidableEq

/-- The two object stores, as named by `NOTES_STORE` / `LINKS_STORE`. -/
inductive StoreName where
  | notes
  | links
deriving DecidableEq

/-- `deleteItem(storeName, id, message, callback)` (src/script.js:455-483).
`confirmAnswer` is the user's reply to the `confirm` dialog. -/
def deleteItem (storeName : StoreName) (i : Nat) (message : List Char)
    (confirmAnswer : Bool) (s : AppState) : AppState × List ToastMsg :=
  if !confirmAnswer then (s, [])
  else
    let s' :=
      match storeName with
      | StoreName.notes => { s with notes := deleteNoteFromLocalStorage i s.notes }
      | StoreName.links => { s with links := deleteLinkFromLocalStorage i s.links }
    ({ s' with currentNoteId := none, currentLinkId := none },
     [⟨message, ("success").data⟩])

/-- `deleteNoteOrLink()` (src/script.js:433-453).  With a link selected under
the localStorage fallback the TODO branch only emits a warning toast; with a
note selected under the fallback the note is deleted without confirmation;
otherwise `deleteItem` runs (both backends delete by key, embedded uniformly
as a filter on the store). -/
def deleteNoteOrLink (confirmAnswer : Bool) (s : AppState) : AppState × List ToastMsg :=
  match s.currentLinkId with
  | some lid =>
    if s.useLocalStorageFallback then
      (s, [⟨("Eliminar enlaces no está disponible en modo de respaldo").data,
           ("warning").data⟩])
    else
      deleteItem StoreName.links lid (("Enlace eliminado").data) confirmAnswer s
  | none =>
    match s.currentNoteId with
    | some nid =>
      if s.useLocalStorageFallback then
        ({ s with notes := deleteNoteFromLocalStorage nid s.notes,
                  currentNoteId := none, currentLinkId := none },
         [⟨("Nota eliminada").data, ("success").data⟩])
      else
        deleteItem StoreName.notes nid (("Nota eliminada").data) confirmAnswer s
    | none =>
      (s, [⟨("No hay nada seleccionado para eliminar").data, ("warning").data⟩])

/-- `[0-9]` of the `isURL` pattern. -/
def isDigitCh (c : Char) : Bool := '0' ≤ c && c ≤ '9'

/-- Case-insensitive `startsWith` against an all-lowercase pattern, for the
`i` flag on the `isURL` regex's `https?:\/\/` prefix. -/
def startsWithCI (s pat : List Char) : Bool :=
  match s, pat with
  | _, [] => true
  | [], _ :: _ => false
  | c :: cs, p :: ps => c.toLower == p && startsWithCI cs ps

/-- The optional `(https?:\/\/)?` group of `isURL` (src/script.js:867): when
the scheme is present it must be consumed, since the host that follows can
only start with a digit. -/
def stripScheme (s : List Char) : List Char :=
  if startsWithCI s ("https://").data then s.drop 8
  else if startsWithCI s ("http://").data then s.drop 7
  else s

/-- One octet alternative `[0-9]|[1-9][0-9]|1[0-9]{2}|2[0-4][0-9]|25[0-5]`
of the `isURL` pattern (src/script.js:868), applied to a maximal digit run. -/
def validOctet (ds : List Char) : Bool :=
  match ds with
  | [a] => isDigitCh a
  | [a, b] => ('1' ≤ a && a ≤ '9') && isDigitCh b
  | [a, b, c] =>
    (a == '1' && isDigitCh b && isDigitCh c) ||
    (a == '2' && ('0' ≤ b && b ≤ '4') && isDigitCh c) ||
    (a == '2' && b == '5' && ('0' ≤ c && c ≤ '5'))
  | _ => false

/-- Consume one octet followed by a literal `.` (the repeated group
`(octet\.){3}` of `isURL`).  Every successful regex match takes the whole
maximal digit run as the octet, since the next pattern character is never a
digit. -/
def parseOctetDot (s : List Char) : Option (List Char) :=
  let ds := s.takeWhile isDigitCh
  if validOctet ds then
    match s.drop ds.length with
    | '.' :: r => some r
    | _ => none
  else none

/-- Consume the final octet of the IPv4 host of `isURL`. -/
def parseOctetEnd (s : List Char) : Option (List Char) :=
  let ds := s.takeWhile isDigitCh
  if validOctet ds then some (s.drop ds.length) else none

/-- The full IPv4 host `((octet\.){3}octet)` of `isURL` (src/script.js:868). -/
def parseIPv4 (s : List Char) : Option (List Char) :=
  (parseOctetDot s).bind fun r1 =>
    (parseOctetDot r1).bind fun r2 =>
      (parseOctetDot r2).bind parseOctetEnd

/-- The optional port `(:[0-9]+)?` of `isURL` (src/script.js:869): a colon not
followed by a digit can be matched by no later pattern part, so it is a dead
end. -/
def parsePort (s : List Char) : Option (List Char) :=
  match s with
  | ':' :: r =>
    let ds := r.takeWhile isDigitCh
    if ds.isEmpty then none else some (r.drop ds.length)
  | _ => some s

/-- The path segment character class `[-a-zA-Z0-9%_.~+]` of `isURL`. -/
def isPathChar (c : Char) : Bool :=
  c == '-' || ('a' ≤ c && c ≤ 'z') || ('A' ≤ c && c ≤ 'Z') || isDigitCh c ||
  c == '%' || c == '_' || c == '.' || c == '~' || c == '+'

/-- The path `(\/[-a-zA-Z0-9%_.~+]*)*` of `isURL` (src/script.js:869): a
maximal run of segment characters and slashes, starting with a slash. -/
def parsePath (s : List Char) : List Char :=
  match s with
  | '/' :: _ => s.dropWhile (fun c => c == '/' || isPathChar c)
  | _ => s

/-- The query character class `[;&a-zA-Z0-9%_.~+=-]` of `isURL`. -/
def isQueryChar (c : Char) : Bool :=
  c == ';' || c == '&' || ('a' ≤ c && c ≤ 'z') || ('A' ≤ c && c ≤ 'Z') ||
  isDigitCh c || c == '%' || c == '_' || c == '.' || c == '~' || c == '+' ||
  c == '=' || c == '-'

/-- The optional query string `(\?[;&a-zA-Z0-9%_.~+=-]*)?` of `isURL`. -/
def parseQuery (s : List Char) : List Char :=
  match s with
  | '?' :: r => r.dropWhile isQueryChar
  | _ => s

/-- The fragment character class `[-a-zA-Z0-9_]` of `isURL`. -/
def isFragChar (c : Char) : Bool :=
  c == '-' || ('a' ≤ c && c ≤ 'z') || ('A' ≤ c && c ≤ 'Z') || isDigitCh c || c == '_'

/-- The optional fragment `(\#[-a-zA-Z0-9_]*)?` of `isURL` (src/script.js:871). -/
def parseFrag (s : List Char) : List Char :=
  match s with
  | '#' :: r => r.dropWhile isFragChar
  | _ => s

/-- `isURL(str)` (src/script.js:866-873): the anchored regex
`^(https?:\/\/)?((octet\.){3}octet)(:[0-9]+)?(\/seg*)*(\?q*)?(\#f*)?$` as a
deterministic parser (each stage's greedy consumption is forced, since no
alternative continuation can absorb the next character). -/
def isURL (s : List Char) : Bool :=
  match parseIPv4 (stripScheme s) with
  | none => false
  | some afterHost =>
    match parsePort afterHost with
    | none => false
    | some afterPort => (parseFrag (parseQuery (parsePath afterPort))).isEmpty

/-- `saveNoteOrLink()` (src/script.js:202-219) together with the save routines
it dispatches to.  `titleRaw`/`contentRaw`/`reminderVal` are the editor input
values; `newId`/`now` stand for the fresh id (`Date.now() + Math.random()` or
the autoincrement key) and the current time of this invocation. -/
def saveNoteOrLink (titleRaw contentRaw reminderVal : List Char) (newId now : Nat)
    (s : AppState) : AppState × List ToastMsg :=
  if !s.dbInitialized then
    (s, [⟨("Base de datos no inicializada").data, ("danger").data⟩])
  else
    let title := trimL titleRaw
    let content := trimL contentRaw
    if title.isEmpty && content.isEmpty then
      (s, [⟨("La nota o el enlace no puede estar vacío").data, ("warning").data⟩])
    else
      match s.currentLinkId with
      | some lid =>
        let links' :=
          if s.useLocalStorageFallback then updateLinkFlat lid title content now s.links
          else updateLinkIDB lid title content now s.links
        let found := (links'.length != 0) &&
          (s.links.find? (fun l => l.id == some lid)).isSome
        if found then
          ({ s with links := links', currentNoteId := none, currentLinkId := none },
           [⟨("Enlace actualizado correctamente").data, ("success").data⟩])
        else ({ s with links := links' }, [])
      | none =>
        if isURL content then
          let t := if title.isEmpty then ("Enlace sin título").data else title
          let links' :=
            if s.useLocalStorageFallback then (saveLinkFlat t content newId now s.links).2
            else saveLinkIDB t content newId now s.links
          ({ s with links := links', currentNoteId := none, currentLinkId := none },
           [⟨("Enlace guardado correctamente").data, ("success").data⟩])
        else
          let t := if title.isEmpty then ("Sin título").data else title
          let r :=
            if s.useLocalStorageFallback then
              saveNoteFlat t content reminderVal s.currentNoteId newId now s.notes
            else
              saveNoteIDB t content reminderVal s.currentNoteId newId now s.notes
          ({ s with notes := r.2,
                    currentNoteId := if s.currentNoteId.isNone then r.1 else s.currentNoteId },
           [⟨("Nota guardada correctamente").data, ("success").data⟩])

/-- The `${note.reminder || 'None'}` interpolation of `exportNotes`. -/
def renderReminder (n : Note) : List Char :=
  if n.reminder.isEmpty then ("None").data else n.reminder

/-- The `${note.createdAt}` interpolation of `exportNotes`: an absent field
prints as `undefined`.  `dts` renders a `Date` value as JS string
interpolation would. -/
def renderCreated (dts : Nat → List Char) (n : Note) : List Char :=
  match n.createdAt with
  | some k => dts k
  | none => ("undefined").data

/-- One note's section of the export file (src/script.js:766 / 789), between
the surrounding `----------` separator lines. -/
def noteInner (dts : Nat → List Char) (n : Note) : List Char :=
  ("Title: ").data ++ n.title ++ ['\n'] ++
  (("Content: ").data ++ n.content ++ ['\n'] ++
  (("Reminder: ").data ++ renderReminder n ++ ['\n'] ++
  (("Created: ").data ++ renderCreated dts n ++ ['\n'] ++
  (("Updated: ").data ++ dts n.updatedAt ++ ['\n']))))

/-- The full separator line `----------\n` used by `exportNotes` and split
upon by `importNotes`. -/
def sepFull : List Char := ("----------\n").data

/-- `sepFull` without its leading hyphen, for `splitSepAux`. -/
def sepRest : List Char := ("---------\n").data

/-- The `content +=` loop of `exportNotes`: each note appends
`----------\n` + its section + `----------\n`. -/
def sectionsConcat (dts : Nat → List Char) : List Note → List Char
  | [] => []
  | n :: ns => sepFull ++ noteInner dts n ++ sepFull ++ sectionsConcat dts ns

/-- The `Glass Note Export - ${date}\n\n` header of the export file. -/
def exportHeader (dateStr : List Char) : List Char :=
  ("Glass Note Export - ").data ++ dateStr ++ ("\n\n").data

/-- The text produced by `exportNotes()` (src/script.js:759-800) for a
non-empty collection: header followed by one section per note. -/
def exportContent (dts : Nat → List Char) (dateStr : List Char)
    (notes : List Note) : List Char :=
  exportHeader dateStr ++ sectionsConcat dts notes

/-- The per-section parse of `importNotes` (src/script.js:815-834): sections
starting with `Title:` contribute a note whose title and content come from the
first lines starting with `Title:` / `Content:`, stripped of the tag and
trimmed. -/
def parseSection (sec : List Char) : Option (List Char × List Char) :=
  if startsWithL sec ("Title:").data then
    match (splitSepAux '\n' [] sec).find? (fun l => startsWithL l ("Title:").data),
          (splitSepAux '\n' [] sec).find? (fun l => startsWithL l ("Content:").data) with
    | some titleLine, some contentLine =>
      some (trimL (replaceFirstL titleLine (("Title: ").data) []),
            trimL (replaceFirstL contentLine (("Content: ").data) []))
    | _, _ => none
  else none

/-- The `(title, content)` pairs `importNotes` extracts from a file: split on
`----------\n`, drop whitespace-only chunks, parse each section. -/
def importedPairs (content : List Char) : List (List Char × List Char) :=
  ((splitSepAux '-' sepRest content).filter
    (fun sec => !(trimL sec).isEmpty)).filterMap parseSection

/-- The note object `importNotes` builds for one parsed section
(`{title, content, updatedAt}`) before `saveNoteToLocalStorage`. -/
def importedNote (t c : List Char) (now : Nat) : Note :=
  { id := none, title := t, content := c, reminder := [],
    createdAt := none, updatedAt := now }

/-- The save loop of `importNotes` over the parsed sections (localStorage
backend): each parsed pair goes through `saveNoteToLocalStorage`, with
`idGen k` the fresh id generated for the k-th saved note. -/
def importSaveLoop (now : Nat) (idGen : Nat → Nat) :
    Nat → List (List Char × List Char) → List Note → List Note
  | _, [], store => store
  | k, (t, c) :: rest, store =>
    importSaveLoop now idGen (k + 1) rest
      (saveNoteToLocalStorage (importedNote t c now) (idGen k) now store).2

/-- `importNotes(event)` (src/script.js:802-864), localStorage backend: parse
the file content and save every parsed note into the store. -/
def importNotesFlat (content : List Char) (now : Nat) (idGen : Nat → Nat)
    (store : List Note) : List Note :=
  importSaveLoop now idGen 0 (importedPairs content) store

/-- Does `s` begin with the separator `sc :: sep`? -/
def hasSepStart (sc : Char) (sep : List Char) (s : List Char) : Bool :=
  match s with
  | [] => false
  | c :: rest => sc == c && startsWithL rest sep

/-- No occurrence of the separator `sc :: sep` begins at any position of
`chunk` inside the string `chunk ++ tail`. -/
def sepFreeChunk (sc : Char) (sep tail : List Char) : List Char → Bool
  | [] => true
  | c :: ch => !(hasSepStart sc sep (c :: (ch ++ tail))) && sepFreeChunk sc sep tail ch

theorem startsWithL_self_append (p r : List Char) : startsWithL (p ++ r) p = true := by
  induction p with
  | nil => simp [startsWithL]
  | cons c cs ih => simp [startsWithL, ih]

theorem startsWithL_append_trunc (pat a b : List Char) (h : pat.length ≤ a.length) :
    startsWithL (a ++ b) pat = startsWithL a pat := by
  induction pat generalizing a with
  | nil => cases a <;> simp [startsWithL]
  | cons p ps ih =>
    cases a with
    | nil => simp at h
    | cons c cs =>
      simp only [List.cons_append, startsWithL, List.append_eq]
      rw [ih cs (by simpa using h)]

theorem splitSepAux_nil (sc : Char) (sep : List Char) :
    splitSepAux sc sep [] = [[]] := by
  simp [splitSepAux]

theorem splitSepAux_chunk (sc : Char) (sep chunk rest : List Char)
    (h : sepFreeChunk sc sep (sc :: sep) chunk = true) :
    splitSepAux sc sep (chunk ++ (sc :: sep) ++ rest) = chunk :: splitSepAux sc sep rest := by
  induction chunk with
  | nil =>
    simp only [List.nil_append, List.cons_append, splitSepAux]
    rw [if_pos (by simp [startsWithL_self_append])]
    rw [show (sep ++ rest).drop sep.length = rest from by
      simp [List.drop_left]]
  | cons d ch ih =>
    simp only [sepFreeChunk, hasSepStart, Bool.and_eq_true, Bool.not_eq_true'] at h
    obtain ⟨h1, h2⟩ := h
    simp only [List.cons_append, List.append_assoc] at ih h1 ⊢
    rw [splitSepAux]
    have hsw : startsWithL (ch ++ sc :: (sep ++ rest)) sep
        = startsWithL (ch ++ sc :: sep) sep := by
      have := startsWithL_append_trunc sep (ch ++ sc :: sep) rest (by simp; omega)
      simpa [List.append_assoc] using this
    rw [if_neg (by rw [hsw]; simp [h1])]
    rw [ih h2]

/-- For a single-character separator, a chunk whose characters all differ from
the separator character is separator-free. -/
theorem sepFreeChunk_single (sc : Char) (tail chunk : List Char)
    (h : chunk.all (fun c => !(c == sc)) = true) :
    sepFreeChunk sc [] tail chunk = true := by
  induction chunk with
  | nil => rfl
  | cons c ch ih =>
    simp only [List.all_cons, Bool.and_eq_true, Bool.not_eq_true'] at h
    have h1 : c ≠ sc := by simpa using h.1
    simp only [sepFreeChunk, hasSepStart, startsWithL, Bool.and_eq_true,
      Bool.not_eq_true', Bool.and_true]
    exact ⟨by simpa using Ne.symm h1, ih h.2⟩

/-- `s` contains no newline character. -/
def noNL (s : List Char) : Bool := s.all (fun c => !(c == '\n'))

/-- The side conditions under which one note survives the export/import text
codec unchanged: single-line fields, trim-stable title and content, and no
stray `----------\n` separator inside the note's section. -/
def exportSafeNote (dts : Nat → List Char) (n : Note) : Bool :=
  noNL n.title && noNL n.content && noNL (renderReminder n) &&
  noNL (renderCreated dts n) && noNL (dts n.updatedAt) &&
  (trimL n.title == n.title) && (trimL n.content == n.content) &&
  sepFreeChunk '-' sepRest sepFull (noteInner dts n)

theorem startsWithL_mono (a b pat : List Char) (h : startsWithL a pat = true) :
    startsWithL (a ++ b) pat = true := by
  induction pat generalizing a with
  | nil => simp [startsWithL]
  | cons p ps ih =>
    cases a with
    | nil => simp [startsWithL] at h
    | cons c cs =>
      simp only [startsWithL, Bool.and_eq_true] at h
      simp only [List.cons_append, startsWithL, Bool.and_eq_true, List.append_eq]
      exact ⟨h.1, ih cs h.2⟩

theorem trimL_ne_nil_of_head (c : Char) (r : List Char)
    (h : isWhitespaceJS c = false) : trimL (c :: r) ≠ [] := by
  intro habs
  unfold trimL at habs
  rw [List.dropWhile_cons_of_neg (by simp [h])] at habs
  have h2 : (c :: r).reverse.dropWhile isWhitespaceJS = [] := by
    cases hrev : (c :: r).reverse.dropWhile isWhitespaceJS with
    | nil => rfl
    | cons x xs => rw [hrev] at habs; simp at habs
  rw [List.dropWhile_eq_nil_iff] at h2
  have := h2 c (by simp)
  rw [h] at this
  exact Bool.false_ne_true this

theorem replaceFirstL_strip (p : Char) (ps r : List Char) :
    replaceFirstL ((p :: ps) ++ r) (p :: ps) [] = r := by
  rw [List.cons_append, replaceFirstL]
  rw [if_pos (by simp [startsWithL, startsWithL_self_append])]
  simp [List.drop_left]

/-- The `'\n'`-split of one note's export section, under the single-line
hypotheses. -/
theorem noteInner_lines (dts : Nat → List Char) (n : Note)
    (ht : noNL n.title = true) (hc : noNL n.content = true)
    (hr : noNL (renderReminder n) = true)
    (hcr : noNL (renderCreated dts n) = true)
    (hu : noNL (dts n.updatedAt) = true) :
    splitSepAux '\n' [] (noteInner dts n) =
      [("Title: ").data ++ n.title,
       ("Content: ").data ++ n.content,
       ("Reminder: ").data ++ renderReminder n,
       ("Created: ").data ++ renderCreated dts n,
       ("Updated: ").data ++ dts n.updatedAt,
       []] := by
  have hfree : ∀ (tag s : List Char), tag.all (fun c => !(c == '\n')) = true →
      noNL s = true → sepFreeChunk '\n' [] ['\n'] (tag ++ s) = true := by
    intro tag s h1 h2
    refine sepFreeChunk_single _ _ _ ?_
    rw [List.all_append, h1]
    simpa [noNL] using h2
  rw [noteInner]
  rw [splitSepAux_chunk '\n' [] (("Title: ").data ++ n.title) _
    (hfree _ _ (by decide) ht)]
  rw [splitSepAux_chunk '\n' [] (("Content: ").data ++ n.content) _
    (hfree _ _ (by decide) hc)]
  rw [splitSepAux_chunk '\n' [] (("Reminder: ").data ++ renderReminder n) _
    (hfree _ _ (by decide) hr)]
  rw [splitSepAux_chunk '\n' [] (("Created: ").data ++ renderCreated dts n) _
    (hfree _ _ (by decide) hcr)]
  rw [show ("Updated: ").data ++ dts n.updatedAt ++ ['\n']
      = ("Updated: ").data ++ dts n.updatedAt ++ ['\n'] ++ ([] : List Char) from by simp]
  rw [splitSepAux_chunk '\n' [] (("Updated: ").data ++ dts n.updatedAt) _
    (hfree _ _ (by decide) hu)]
  rw [splitSepAux_nil]

/-- Parsing one exported section recovers exactly the note's title and
content, under the per-note side conditions. -/
theorem parseSection_noteInner (dts : Nat → List Char) (n : Note)
    (ht : noNL n.title = true) (hc : noNL n.content = true)
    (hr : noNL (renderReminder n) = true)
    (hcr : noNL (renderCreated dts n) = true)
    (hu : noNL (dts n.updatedAt) = true)
    (htt : trimL n.title = n.title) (htc : trimL n.content = n.content) :
    parseSection (noteInner dts n) = some (n.title, n.content) := by
  have hstart : startsWithL (noteInner dts n) (("Title:").data) = true := by
    rw [noteInner]
    refine startsWithL_mono _ _ _ (startsWithL_mono _ _ _ ?_)
    rw [show ("Title: ").data = ("Title:").data ++ [' '] from rfl, List.append_assoc]
    exact startsWithL_self_append _ _
  have hTC : startsWithL (("Title: ").data ++ n.title) (("Content:").data) = false := by
    rw [show ("Title: ").data = 'T' :: ("itle: ").data from rfl,
        show ("Content:").data = 'C' :: ("ontent:").data from rfl, List.cons_append]
    simp [startsWithL, show ('T' == 'C') = false from by decide]
  have hTT : startsWithL (("Title: ").data ++ n.title) (("Title:").data) = true := by
    rw [show ("Title: ").data = ("Title:").data ++ [' '] from rfl]
    rw [List.append_assoc]
    exact startsWithL_self_append _ _
  have hCC : startsWithL (("Content: ").data ++ n.content) (("Content:").data) = true := by
    rw [show ("Content: ").data = ("Content:").data ++ [' '] from rfl]
    rw [List.append_assoc]
    exact startsWithL_self_append _ _
  have hf1 : List.find? (fun l => startsWithL l (("Title:").data))
      [("Title: ").data ++ n.title, ("Content: ").data ++ n.content,
       ("Reminder: ").data ++ renderReminder n,
       ("Created: ").data ++ renderCreated dts n,
       ("Updated: ").data ++ dts n.updatedAt, []]
      = some (("Title: ").data ++ n.title) := by
    simp only [List.find?]
    rw [hTT]
  have hf2 : List.find? (fun l => startsWithL l (("Content:").data))
      [("Title: ").data ++ n.title, ("Content: ").data ++ n.content,
       ("Reminder: ").data ++ renderReminder n,
       ("Created: ").data ++ renderCreated dts n,
       ("Updated: ").data ++ dts n.updatedAt, []]
      = some (("Content: ").data ++ n.content) := by
    simp only [List.find?]
    rw [hTC, hCC]
  rw [parseSection, if_pos hstart]
  rw [noteInner_lines dts n ht hc hr hcr hu]
  simp only [hf1, hf2]
  rw [replaceFirstL_strip, replaceFirstL_strip]
  rw [htt, htc]

/-- Expected shape of the `----------\n`-split of the concatenated sections:
an empty chunk before each section (from the doubled separators) and a final
empty chunk. -/
def splitSectionsExpected (dts : Nat → List Char) : List Note → List (List Char)
  | [] => [[]]
  | n :: ns => [] :: noteInner dts n :: splitSectionsExpected dts ns

theorem splitSepAux_sectionsConcat (dts : Nat → List Char) (ns : List Note)
    (h : ∀ n ∈ ns, sepFreeChunk '-' sepRest sepFull (noteInner dts n) = true) :
    splitSepAux '-' sepRest (sectionsConcat dts ns) = splitSectionsExpected dts ns := by
  induction ns with
  | nil =>
    simpa [sectionsConcat, splitSectionsExpected] using splitSepAux_nil '-' sepRest
  | cons n ns ih =>
    have e : sectionsConcat dts (n :: ns) =
        [] ++ ('-' :: sepRest) ++
          (noteInner dts n ++ ('-' :: sepRest) ++ sectionsConcat dts ns) := by
      simp [sectionsConcat, show sepFull = '-' :: sepRest from rfl, List.append_assoc]
    rw [e]
    rw [splitSepAux_chunk '-' sepRest [] _ rfl]
    rw [splitSepAux_chunk '-' sepRest (noteInner dts n) _ (h n (by simp))]
    rw [ih (fun m hm => h m (by simp [hm]))]
    rfl

theorem splitSepAux_exportContent (dts : Nat → List Char) (d : List Char)
    (n : Note) (ns : List Note)
    (hhdr : sepFreeChunk '-' sepRest sepFull (exportHeader d) = true)
    (h : ∀ m ∈ n :: ns, sepFreeChunk '-' sepRest sepFull (noteInner dts m) = true) :
    splitSepAux '-' sepRest (exportContent dts d (n :: ns)) =
      exportHeader d :: noteInner dts n :: splitSectionsExpected dts ns := by
  have e : exportContent dts d (n :: ns) =
      exportHeader d ++ ('-' :: sepRest) ++
        (noteInner dts n ++ ('-' :: sepRest) ++ sectionsConcat dts ns) := by
    simp [exportContent, sectionsConcat, show sepFull = '-' :: sepRest from rfl,
      List.append_assoc]
  rw [e]
  rw [splitSepAux_chunk '-' sepRest (exportHeader d) _ hhdr]
  rw [splitSepAux_chunk '-' sepRest (noteInner dts n) _ (h n (by simp))]
  rw [splitSepAux_sectionsConcat dts ns (fun m hm => h m (by simp [hm]))]

theorem bool_not_isEmpty_of_ne_nil (s : List Char) (h : s ≠ []) :
    (!s.isEmpty) = true := by
  cases s with
  | nil => exact absurd rfl h
  | cons c cs => rfl

theorem trimL_noteInner_ne_nil (dts : Nat → List Char) (n : Note) :
    trimL (noteInner dts n) ≠ [] := by
  rw [show noteInner dts n = 'T' ::
      ((("itle: ").data ++ n.title ++ ['\n']) ++
       (("Content: ").data ++ n.content ++ ['\n'] ++
       (("Reminder: ").data ++ renderReminder n ++ ['\n'] ++
       (("Created: ").data ++ renderCreated dts n ++ ['\n'] ++
       (("Updated: ").data ++ dts n.updatedAt ++ ['\n']))))) from rfl]
  exact trimL_ne_nil_of_head _ _ (by decide)

theorem filter_splitSectionsExpected (dts : Nat → List Char) (ns : List Note) :
    (splitSectionsExpected dts ns).filter (fun sec => !(trimL sec).isEmpty)
      = ns.map (noteInner dts) := by
  induction ns with
  | nil => simp [splitSectionsExpected, trimL]
  | cons n ns ih =>
    have h1 : (!(trimL ([] : List Char)).isEmpty) = false := by simp [trimL]
    have h2 := bool_not_isEmpty_of_ne_nil _ (trimL_noteInner_ne_nil dts n)
    simp [splitSectionsExpected, List.filter_cons, h1, h2, ih]

theorem parseSection_exportHeader (d : List Char) :
    parseSection (exportHeader d) = none := by
  rw [parseSection, if_neg]
  rw [show exportHeader d =
      'G' :: ((("lass Note Export - ").data ++ d) ++ ("\n\n").data) from rfl]
  rw [show ("Title:").data = 'T' :: ("itle:").data from rfl]
  simp [startsWithL, show ('G' == 'T') = false from by decide]

theorem filterMap_parse_sections (dts : Nat → List Char) (ns : List Note)
    (h : ∀ n ∈ ns, parseSection (noteInner dts n) = some (n.title, n.content)) :
    (ns.map (noteInner dts)).filterMap parseSection
      = ns.map (fun n => (n.title, n.content)) := by
  induction ns with
  | nil => rfl
  | cons n ns ih =>
    simp [List.filterMap_cons, h n (by simp), ih (fun m hm => h m (by simp [hm]))]

theorem exportSafeNote_fields (dts : Nat → List Char) (n : Note)
    (h : exportSafeNote dts n = true) :
    noNL n.title = true ∧ noNL n.content = true ∧ noNL (renderReminder n) = true ∧
    noNL (renderCreated dts n) = true ∧ noNL (dts n.updatedAt) = true ∧
    trimL n.title = n.title ∧ trimL n.content = n.content ∧
    sepFreeChunk '-' sepRest sepFull (noteInner dts n) = true := by
  simp only [exportSafeNote, Bool.and_eq_true, beq_iff_eq] at h
  tauto

/-- The parsed `(title, content)` pairs of an exported non-empty collection
are exactly the notes' titles and contents, under the per-note side
conditions. -/
theorem importedPairs_exportContent (dts : Nat → List Char) (d : List Char)
    (notes : List Note) (hne : notes ≠ [])
    (hhdr : sepFreeChunk '-' sepRest sepFull (exportHeader d) = true)
    (hsafe : ∀ n ∈ notes, exportSafeNote dts n = true) :
    importedPairs (exportContent dts d notes)
      = notes.map (fun n => (n.title, n.content)) := by
  cases notes with
  | nil => exact absurd rfl hne
  | cons n ns =>
    have hparse : ∀ m ∈ n :: ns,
        parseSection (noteInner dts m) = some (m.title, m.content) := by
      intro m hm
      obtain ⟨h1, h2, h3, h4, h5, h6, h7, _⟩ := exportSafeNote_fields dts m (hsafe m hm)
      exact parseSection_noteInner dts m h1 h2 h3 h4 h5 h6 h7
    have hfreeN : ∀ m ∈ n :: ns,
        sepFreeChunk '-' sepRest sepFull (noteInner dts m) = true :=
      fun m hm => (exportSafeNote_fields dts m (hsafe m hm)).2.2.2.2.2.2.2
    have hhdrKeep := bool_not_isEmpty_of_ne_nil _
      (show trimL (exportHeader d) ≠ [] from by
        rw [show exportHeader d =
            'G' :: ((("lass Note Export - ").data ++ d) ++ ("\n\n").data) from rfl]
        exact trimL_ne_nil_of_head _ _ (by decide))
    have hinKeep := bool_not_isEmpty_of_ne_nil _ (trimL_noteInner_ne_nil dts n)
    rw [importedPairs, splitSepAux_exportContent dts d n ns hhdr hfreeN]
    simp only [List.filter_cons, hhdrKeep, hinKeep, if_true]
    rw [filter_splitSectionsExpected dts ns]
    rw [show noteInner dts n :: ns.map (noteInner dts)
        = (n :: ns).map (noteInner dts) from rfl]
    simp only [List.filterMap_cons, parseSection_exportHeader d]
    rw [filterMap_parse_sections dts (n :: ns) hparse]

/-- The notes appended by the import save loop, with their assigned ids and
stamps. -/
def importedNotesList (now : Nat) (idGen : Nat → Nat) :
    Nat → List (List Char × List Char) → List Note
  | _, [] => []
  | k, (t, c) :: rest =>
    { id := some (idGen k), title := t, content := c, reminder := [],
      createdAt := some now, updatedAt := now } ::
      importedNotesList now idGen (k + 1) rest

theorem importSaveLoop_appends (now : Nat) (idGen : Nat → Nat)
    (pairs : List (List Char × List Char)) : ∀ (k : Nat) (store : List Note),
    importSaveLoop now idGen k pairs store
      = store ++ importedNotesList now idGen k pairs := by
  induction pairs with
  | nil => intro k store; simp [importSaveLoop, importedNotesList]
  | cons p rest ih =>
    intro k store
    obtain ⟨t, c⟩ := p
    rw [importSaveLoop, ih (k + 1)]
    simp [saveNoteToLocalStorage, importedNote, importedNotesList, List.append_assoc]

theorem importedNotesList_map (now : Nat) (idGen : Nat → Nat) :
    ∀ (k : Nat) (pairs : List (List Char × List Char)),
    (importedNotesList now idGen k pairs).map (fun n => (n.title, n.content)) = pairs := by
  intro k pairs
  induction pairs generalizing k with
  | nil => rfl
  | cons p rest ih =>
    obtain ⟨t, c⟩ := p
    simp [importedNotesList, ih]

theorem insertByUpdatedDesc_perm (x : Note) (l : List Note) :
    (insertByUpdatedDesc x l).Perm (x :: l) := by
  induction l with
  | nil => exact List.Perm.refl _
  | cons y ys ih =>
    rw [insertByUpdatedDesc]
    by_cases h : x.updatedAt < y.updatedAt
    · rw [if_pos h]
      exact (ih.cons y).trans (List.Perm.swap x y ys)
    · rw [if_neg h]

theorem sortByUpdatedDesc_perm (l : List Note) : (sortByUpdatedDesc l).Perm l := by
  induction l with
  | nil => exact List.Perm.refl _
  | cons x xs ih =>
    exact (insertByUpdatedDesc_perm x (sortByUpdatedDesc xs)).trans (ih.cons x)

theorem insertByUpdatedDesc_sorted (x : Note) (l : List Note)
    (h : List.Pairwise (fun a b : Note => b.updatedAt ≤ a.updatedAt) l) :
    List.Pairwise (fun a b : Note => b.updatedAt ≤ a.updatedAt)
      (insertByUpdatedDesc x l) := by
  induction l with
  | nil => simp [insertByUpdatedDesc]
  | cons y ys ih =>
    rw [List.pairwise_cons] at h
    rw [insertByUpdatedDesc]
    by_cases hlt : x.updatedAt < y.updatedAt
    · rw [if_pos hlt]
      rw [List.pairwise_cons]
      refine ⟨?_, ih h.2⟩
      intro z hz
      rw [(insertByUpdatedDesc_perm x ys).mem_iff] at hz
      rcases List.mem_cons.mp hz with hzx | hzys
      · subst hzx; exact Nat.le_of_lt hlt
      · exact h.1 z hzys
    · rw [if_neg hlt]
      rw [List.pairwise_cons]
      refine ⟨?_, List.pairwise_cons.mpr h⟩
      intro z hz
      rcases List.mem_cons.mp hz with hzy | hzys
      · subst hzy; exact Nat.le_of_not_lt hlt
      · exact Nat.le_trans (h.1 z hzys) (Nat.le_of_not_lt hlt)

theorem sortByUpdatedDesc_sorted (l : List Note) :
    List.Pairwise (fun a b : Note => b.updatedAt ≤ a.updatedAt)
      (sortByUpdatedDesc l) := by
  induction l with
  | nil => exact List.Pairwise.nil
  | cons x xs ih => exact insertByUpdatedDesc_sorted x _ ih

theorem findIdxL_eq_none (p : α → Bool) (l : List α)
    (h : ∀ x ∈ l, p x = false) : findIdxL p l = none := by
  induction l with
  | nil => rfl
  | cons a as ih =>
    rw [findIdxL, if_neg (by rw [h a (by simp)]; simp)]
    rw [ih (fun x hx => h x (by simp [hx]))]
    rfl

theorem findIdxL_lt_length (p : α → Bool) (l : List α) (j : Nat)
    (h : findIdxL p l = some j) : j < l.length := by
  induction l generalizing j with
  | nil => simp [findIdxL] at h
  | cons a as ih =>
    rw [findIdxL] at h
    by_cases hp : p a = true
    · rw [if_pos hp] at h
      simp at h ⊢
      omega
    · rw [if_neg hp] at h
      cases hidx : findIdxL p as with
      | none => rw [hidx] at h; simp at h
      | some j' =>
        rw [hidx] at h
        simp at h
        have := ih j' hidx
        simp
        omega

theorem mem_set_self (l : List α) (j : Nat) (a : α) (h : j < l.length) :
    a ∈ l.set j a := by
  induction l generalizing j with
  | nil => simp at h
  | cons b bs ih =>
    cases j with
    | zero => simp [List.set]
    | succ j' =>
      rw [List.set]
      exact List.mem_cons_of_mem b (ih j' (by simpa using h))

theorem findIdxL_isSome_of_mem (p : α → Bool) (l : List α) (x : α)
    (hx : x ∈ l) (hp : p x = true) : ∃ j, findIdxL p l = some j := by
  induction l with
  | nil => simp at hx
  | cons a as ih =>
    by_cases hpa : p a = true
    · exact ⟨0, by rw [findIdxL, if_pos hpa]⟩
    · have hxas : x ∈ as := by
        rcases List.mem_cons.mp hx with hxa | hxas
        · subst hxa; exact absurd hp hpa
        · exact hxas
      obtain ⟨j, hj⟩ := ih hxas
      exact ⟨j + 1, by rw [findIdxL, if_neg hpa, hj]; rfl⟩

theorem containsSub_of_startsWith (s pat : List Char)
    (h : startsWithL s pat = true) : containsSub s pat = true := by
  cases s with
  | nil =>
    cases pat with
    | nil => rfl
    | cons p ps => simp [startsWithL] at h
  | cons c cs => rw [containsSub, h]; rfl

theorem containsSub_append_right (l r pat : List Char)
    (h : containsSub r pat = true) : containsSub (l ++ r) pat = true := by
  induction l with
  | nil => simpa using h
  | cons c cs ih =>
    rw [List.cons_append, containsSub, ih]
    simp

theorem containsSub_around (a b pat : List Char) :
    containsSub (a ++ (pat ++ b)) pat = true :=
  containsSub_append_right a _ pat
    (containsSub_of_startsWith _ _ (startsWithL_self_append pat b))

theorem setById_eq_map (P : Link → Bool) (newL : Link) (links : List Link)
    (ex : Link) (hfind : links.find? P = some ex)
    (hids : links.Pairwise (fun a b => a.id ≠ b.id)) :
    (match findIdxL (fun l => l.id == ex.id) links with
     | some idx => links.set idx newL
     | none => links)
    = links.map (fun l => if l.id == ex.id then newL else l) := by
  induction links with
  | nil => simp [List.find?] at hfind
  | cons a as ih =>
    rw [List.pairwise_cons] at hids
    by_cases hPa : P a = true
    · have hex : a = ex := by
        rw [List.find?_cons_of_pos _ hPa] at hfind
        exact Option.some.inj hfind
      subst hex
      rw [findIdxL, if_pos (by simp)]
      show newL :: as = (a :: as).map (fun l => if l.id == a.id then newL else l)
      rw [List.map_cons, if_pos (by simp)]
      have hmap : as.map (fun l => if l.id == a.id then newL else l) = as := by
        have hcongr : ∀ l ∈ as, (if l.id == a.id then newL else l) = l := by
          intro l hl
          rw [if_neg (by simp [(hids.1 l hl).symm])]
        calc as.map (fun l => if l.id == a.id then newL else l)
            = as.map id := List.map_congr_left hcongr
          _ = as := List.map_id as
      rw [hmap]
    · have hfind' : as.find? P = some ex := by
        rw [List.find?_cons_of_neg _ hPa] at hfind
        exact hfind
      have hexas : ex ∈ as := List.mem_of_find?_eq_some hfind'
      have hane : (a.id == ex.id) = false := by
        simp [hids.1 ex hexas]
      rw [findIdxL, if_neg (by rw [hane]; simp)]
      rw [List.map_cons, if_neg (by rw [hane]; simp)]
      have ihr := ih hfind' hids.2
      cases hidx : findIdxL (fun l => l.id == ex.id) as with
      | none =>
        rw [hidx] at ihr
        have heq : as = as.map (fun l => if l.id == ex.id then newL else l) := ihr
        show a :: as = a :: as.map (fun l => if l.id == ex.id then newL else l)
        exact congrArg (List.cons a) heq
      | some j =>
        rw [hidx] at ihr
        have heq : as.set j newL
            = as.map (fun l => if l.id == ex.id then newL else l) := ihr
        show a :: as.set j newL
            = a :: as.map (fun l => if l.id == ex.id then newL else l)
        exact congrArg (List.cons a) heq

/-- Claim C7: `formatURL` prepends `http://` exactly when the input starts
with neither `http://` nor `https://` and returns it unchanged otherwise; in
particular `formatURL "example.com" = "http://example.com"` and
`formatURL "https://x.com" = "https://x.com"`; and `formatURL` is
idempotent. -/
theorem C7_formatURL_spec (u : List Char) :
    (startsWithL u (("http://").data) = false →
     startsWithL u (("https://").data) = false →
       formatURL u = ("http://").data ++ u) ∧
    ((startsWithL u (("http://").data) = true ∨
      startsWithL u (("https://").data) = true) →
       formatURL u = u) ∧
    formatURL (("example.com").data) = ("http://example.com").data ∧
    formatURL (("https://x.com").data) = ("https://x.com").data ∧
    formatURL (formatURL u) = formatURL u := by
  refine ⟨?_, ?_, by decide, by decide, ?_⟩
  · intro h1 h2
    rw [formatURL, if_pos (by rw [h1, h2]; rfl)]
  · intro h
    rcases h with h | h
    · rw [formatURL, if_neg (by rw [h]; simp)]
    · rw [formatURL, if_neg (by rw [h]; simp)]
  · by_cases hc : (!startsWithL u (("http://").data) &&
        !startsWithL u (("https://").data)) = true
    · have hinner : formatURL u = ("http://").data ++ u := by
        rw [formatURL, if_pos hc]
      rw [hinner, formatURL,
        if_neg (by rw [startsWithL_self_append (("http://").data) u]; simp)]
    · have hinner : formatURL u = u := by
        rw [formatURL, if_neg hc]
      rw [hinner]
      exact hinner

/-- Claim C7 witness: the conditional clauses of `C7_formatURL_spec`
instantiated at `example.com` and `https://x.com`. -/
theorem C7_formatURL_spec_witness :
    (startsWithL (("example.com").data) (("http://").data) = false ∧
     formatURL (("example.com").data) = ("http://").data ++ ("example.com").data) ∧
    (startsWithL (("https://x.com").data) (("https://").data) = true ∧
     formatURL (("https://x.com").data) = ("https://x.com").data) :=
  ⟨⟨by decide, (C7_formatURL_spec (("example.com").data)).1 (by decide) (by decide)⟩,
   ⟨by decide, (C7_formatURL_spec (("https://x.com").data)).2.1 (Or.inr (by decide))⟩⟩

/-- Claim C1 counterexample: with an empty query, note B, whose reminder is
set to the long-past instant 2020-01-01T00:00, is listed after the
reminder-free note A, because the code sorts purely by `updatedAt`
descending; past-due reminders get no precedence. -/
theorem C1_counterexample :
    loadNotes []
      [{ id := some 1, title := ("A").data, content := ("x").data, reminder := [],
         createdAt := some 10, updatedAt := 200 },
       { id := some 2, title := ("B").data, content := ("y").data,
         reminder := ("2020-01-01T00:00").data, createdAt := some 20, updatedAt := 100 }]
    = [{ id := some 1, title := ("A").data, content := ("x").data, reminder := [],
         createdAt := some 10, updatedAt := 200 },
       { id := some 2, title := ("B").data, content := ("y").data,
         reminder := ("2020-01-01T00:00").data, createdAt := some 20, updatedAt := 100 }] ∧
    (200 : Nat) > 100 := by decide

/-- Claim C1 (amended): with an empty query `loadNotes` returns a permutation
of the whole collection ordered solely by `updatedAt` descending; a past-due
reminder plays no role in the ordering. -/
theorem C1_sort_updatedAt_desc_only (notes : List Note) :
    (loadNotes [] notes).Perm notes ∧
    List.Pairwise (fun a b : Note => b.updatedAt ≤ a.updatedAt)
      (loadNotes [] notes) :=
  ⟨sortByUpdatedDesc_perm notes, sortByUpdatedDesc_sorted notes⟩

/-- Claim C6: an empty query returns every note; a non-empty query returns
exactly the notes whose title or content contains the query as a
case-insensitive substring. -/
theorem C6_search_characterization (notes : List Note) (x : Note) :
    (x ∈ loadNotes [] notes ↔ x ∈ notes) ∧
    (∀ q : List Char, q ≠ [] →
      (x ∈ loadNotes q notes ↔ x ∈ notes ∧ noteMatches (toLowerL q) x = true)) := by
  constructor
  · exact (sortByUpdatedDesc_perm notes).mem_iff
  · intro q hq
    have hq' : q.isEmpty = false := by
      cases q with
      | nil => exact absurd rfl hq
      | cons c cs => rfl
    have he : loadNotes q notes
        = sortByUpdatedDesc (notes.filter (noteMatches (toLowerL q))) := by
      rw [loadNotes]
      simp [hq']
    rw [he, (sortByUpdatedDesc_perm _).mem_iff, List.mem_filter]

/-- Claim C6 witness: searching `HELLO` finds the note whose content is
`hello world` (case-insensitive substring match). -/
theorem C6_search_characterization_witness :
    (("HELLO").data ≠ ([] : List Char)) ∧
    ({ id := some 1, title := ("T").data, content := ("hello world").data,
       reminder := [], createdAt := some 0, updatedAt := 5 } : Note) ∈
      loadNotes (("HELLO").data)
        [{ id := some 1, title := ("T").data, content := ("hello world").data,
           reminder := [], createdAt := some 0, updatedAt := 5 }] :=
  ⟨by decide,
   ((C6_search_characterization
      [{ id := some 1, title := ("T").data, content := ("hello world").data,
         reminder := [], createdAt := some 0, updatedAt := 5 }]
      { id := some 1, title := ("T").data, content := ("hello world").data,
        reminder := [], createdAt := some 0, updatedAt := 5 }).2
     (("HELLO").data) (by decide)).mpr ⟨by simp, by decide⟩⟩

/-- Claim C8: with the flat backend active and a link selected,
`deleteNoteOrLink` deletes nothing — both stores and the selection are
unchanged — and reports the limitation with a warning toast. -/
theorem C8_flat_link_delete_refused (dbi confirmAnswer : Bool) (nid : Option Nat)
    (lid : Nat) (notes : List Note) (links : List Link) :
    deleteNoteOrLink confirmAnswer
      { dbInitialized := dbi, useLocalStorageFallback := true,
        currentNoteId := nid, currentLinkId := some lid,
        notes := notes, links := links }
    = ({ dbInitialized := dbi, useLocalStorageFallback := true,
         currentNoteId := nid, currentLinkId := some lid,
         notes := notes, links := links },
       [⟨("Eliminar enlaces no está disponible en modo de respaldo").data,
         ("warning").data⟩]) := rfl

/-- Claim C9: the flat-backend update path with an id that is absent from the
store rewrites the store unchanged — no record created, nothing modified, no
error — for notes and links alike. -/
theorem C9_missing_id_update_noop (note : Note) (link : Link) (i j newId now : Nat)
    (notes : List Note) (links : List Link)
    (hni : note.id = some i) (hn : ∀ n ∈ notes, n.id ≠ some i)
    (hli : link.id = some j) (hl : ∀ l ∈ links, l.id ≠ some j) :
    saveNoteToLocalStorage note newId now notes = (some i, notes) ∧
    saveLinkToLocalStorage link newId now links = (some j, links) := by
  constructor
  · have hidx : findIdxL (fun n => n.id == some i) notes = none :=
      findIdxL_eq_none _ _ (fun x hx => by simp [hn x hx])
    simp [saveNoteToLocalStorage, hni, hidx]
  · have hidx : findIdxL (fun l => l.id == some j) links = none :=
      findIdxL_eq_none _ _ (fun x hx => by simp [hl x hx])
    simp [saveLinkToLocalStorage, hli, hidx]

/-- Claim C9 witness: updating id 5 against stores holding only id 1 leaves
both stores unchanged. -/
theorem C9_missing_id_update_noop_witness :
    saveNoteToLocalStorage
      { id := some 5, title := ("t").data, content := ("c").data, reminder := [],
        createdAt := some 1, updatedAt := 2 } 9 9
      [{ id := some 1, title := ("o").data, content := ("k").data, reminder := [],
         createdAt := some 1, updatedAt := 1 }]
    = (some 5,
       [{ id := some 1, title := ("o").data, content := ("k").data, reminder := [],
          createdAt := some 1, updatedAt := 1 }]) ∧
    saveLinkToLocalStorage
      { id := some 5, title := ("t").data, url := ("http://a.com").data,
        createdAt := some 1, updatedAt := 2 } 9 9
      [{ id := some 1, title := ("o").data, url := ("http://b.com").data,
         createdAt := some 1, updatedAt := 1 }]
    = (some 5,
       [{ id := some 1, title := ("o").data, url := ("http://b.com").data,
          createdAt := some 1, updatedAt := 1 }]) :=
  C9_missing_id_update_noop _ _ 5 5 9 9 _ _ (by decide) (by decide) (by decide) (by decide)

/-- Claim C2 (code bug): the creation path stamps `createdAt`, but the update
path keyed by id replaces the stored record with an object that has no
`createdAt` field at all, erasing the creation timestamp instead of keeping
it — shown on both the localStorage and the IndexedDB embedding of
`saveNote`. -/
theorem C2_createdAt_erased_on_update :
    (saveNoteFlat (("t").data) (("c").data) [] none 7 100 []).2
      = [{ id := some 7, title := ("t").data, content := ("c").data, reminder := [],
           createdAt := some 100, updatedAt := 100 }] ∧
    (saveNoteFlat (("t2").data) (("c2").data) [] (some 7) 8 200
        [{ id := some 7, title := ("t").data, content := ("c").data, reminder := [],
           createdAt := some 100, updatedAt := 100 }]).2
      = [{ id := some 7, title := ("t2").data, content := ("c2").data, reminder := [],
           createdAt := none, updatedAt := 200 }] ∧
    (saveNoteIDB (("t2").data) (("c2").data) [] (some 7) 8 200
        [{ id := some 7, title := ("t").data, content := ("c").data, reminder := [],
           createdAt := some 100, updatedAt := 100 }]).2
      = [{ id := some 7, title := ("t2").data, content := ("c2").data, reminder := [],
           createdAt := none, updatedAt := 200 }] := by decide

theorem containsSub_of_parts (s pat x y : List Char) (h : s = x ++ (pat ++ y)) :
    containsSub s pat = true := by
  rw [h]
  exact containsSub_around x y pat

theorem containsSub_sections (dts : Nat → List Char) (n : Note) :
    ∀ ms : List Note, n ∈ ms →
    containsSub (sectionsConcat dts ms) n.title = true ∧
    containsSub (sectionsConcat dts ms) n.content = true := by
  intro ms hms
  induction ms with
  | nil => simp at hms
  | cons m rest ih =>
    rcases List.mem_cons.mp hms with h | h
    · subst h
      constructor
      · refine containsSub_of_parts _ _ (sepFull ++ ("Title: ").data)
          ((['\n'] ++
            (("Content: ").data ++ n.content ++ ['\n'] ++
            (("Reminder: ").data ++ renderReminder n ++ ['\n'] ++
            (("Created: ").data ++ renderCreated dts n ++ ['\n'] ++
            (("Updated: ").data ++ dts n.updatedAt ++ ['\n']))))) ++
           (sepFull ++ sectionsConcat dts rest)) ?_
        simp [sectionsConcat, noteInner, List.append_assoc]
      · refine containsSub_of_parts _ _
          (sepFull ++ (("Title: ").data ++ (n.title ++ (['\n'] ++ ("Content: ").data))))
          ((['\n'] ++
            (("Reminder: ").data ++ renderReminder n ++ ['\n'] ++
            (("Created: ").data ++ renderCreated dts n ++ ['\n'] ++
            (("Updated: ").data ++ dts n.updatedAt ++ ['\n'])))) ++
           (sepFull ++ sectionsConcat dts rest)) ?_
        simp [sectionsConcat, noteInner, List.append_assoc]
    · have hr := ih h
      exact ⟨containsSub_append_right _ _ _ hr.1, containsSub_append_right _ _ _ hr.2⟩

/-- Claim C5 counterexample: exporting a collection holding a note titled
`SECRETO` produces a payload that contains the title verbatim in cleartext
and carries no `encrypted` envelope marker — nothing in the codec derives a
key, encrypts, or wraps the payload. -/
theorem C5_counterexample :
    containsSub
      (exportContent (fun _ => ("0").data) (("d").data)
        [{ id := some 1, title := ("SECRETO").data, content := ("c").data,
           reminder := [], createdAt := some 0, updatedAt := 0 }])
      (("SECRETO").data) = true ∧
    containsSub
      (exportContent (fun _ => ("0").data) (("d").data)
        [{ id := some 1, title := ("SECRETO").data, content := ("c").data,
           reminder := [], createdAt := some 0, updatedAt := 0 }])
      (("encrypted").data) = false := by decide

/-- Claim C5 (amended): the export codec never encrypts: no password is ever
requested (the codec has no password input at all) and every note's title and
content occur verbatim as plaintext substrings of the exported payload; the
importer correspondingly parses the plain text format and never decrypts. -/
theorem C5_export_never_encrypts (dts : Nat → List Char) (d : List Char)
    (notes : List Note) (n : Note) (hn : n ∈ notes) :
    containsSub (exportContent dts d notes) n.title = true ∧
    containsSub (exportContent dts d notes) n.content = true := by
  have key := containsSub_sections dts n notes hn
  exact ⟨containsSub_append_right _ _ _ key.1,
         containsSub_append_right _ _ _ key.2⟩

/-- Claim C5 witness: `C5_export_never_encrypts` at a one-note collection. -/
theorem C5_export_never_encrypts_witness :
    (({ id := some 1, title := ("A").data, content := ("b").data, reminder := [],
        createdAt := some 0, updatedAt := 0 } : Note) ∈
      [({ id := some 1, title := ("A").data, content := ("b").data, reminder := [],
          createdAt := some 0, updatedAt := 0 } : Note)]) ∧
    containsSub
      (exportContent (fun _ => ("0").data) (("d").data)
        [{ id := some 1, title := ("A").data, content := ("b").data, reminder := [],
           createdAt := some 0, updatedAt := 0 }])
      (("A").data) = true :=
  ⟨by decide,
   (C5_export_never_encrypts (fun _ => ("0").data) (("d").data)
     [{ id := some 1, title := ("A").data, content := ("b").data, reminder := [],
        createdAt := some 0, updatedAt := 0 }]
     { id := some 1, title := ("A").data, content := ("b").data, reminder := [],
       createdAt := some 0, updatedAt := 0 } (by decide)).1⟩

/-- Claim C3 counterexample: a note whose content spans two lines
(`x\ny`) exports fine, but importing the exported file truncates the content
to its first line — the round trip is not the identity on contents. -/
theorem C3_counterexample :
    importedPairs
      (exportContent (fun _ => ("0").data) (("d").data)
        [{ id := some 1, title := ("a").data, content := ('x' :: '\n' :: 'y' :: []),
           reminder := [], createdAt := some 5, updatedAt := 7 }])
    = [((("a").data), (("x").data))] ∧
    ('x' :: '\n' :: 'y' :: []) ≠ ("x").data := by
  constructor
  · have e : exportContent (fun _ => ("0").data) (("d").data)
        [{ id := some 1, title := ("a").data, content := ('x' :: '\n' :: 'y' :: []),
           reminder := [], createdAt := some 5, updatedAt := 7 }]
        = ("Glass Note Export - d\n\n").data ++ ('-' :: sepRest) ++
          ((("Title: a\nContent: x\ny\nReminder: None\nCreated: 0\nUpdated: 0\n").data)
            ++ ('-' :: sepRest) ++ ([] : List Char)) := by decide
    rw [importedPairs, e]
    rw [splitSepAux_chunk '-' sepRest (("Glass Note Export - d\n\n").data) _ (by decide)]
    rw [splitSepAux_chunk '-' sepRest
      (("Title: a\nContent: x\ny\nReminder: None\nCreated: 0\nUpdated: 0\n").data) _
      (by decide)]
    rw [splitSepAux_nil]
    have hfil : List.filter (fun sec => !(trimL sec).isEmpty)
        [("Glass Note Export - d\n\n").data,
         ("Title: a\nContent: x\ny\nReminder: None\nCreated: 0\nUpdated: 0\n").data, []]
        = [("Glass Note Export - d\n\n").data,
           ("Title: a\nContent: x\ny\nReminder: None\nCreated: 0\nUpdated: 0\n").data] := by
      decide
    rw [hfil]
    have hh : parseSection (("Glass Note Export - d\n\n").data) = none := by
      rw [parseSection, if_neg (by decide)]
    have hi : parseSection
        (("Title: a\nContent: x\ny\nReminder: None\nCreated: 0\nUpdated: 0\n").data)
        = some ((("a").data), (("x").data)) := by
      have e2 : ("Title: a\nContent: x\ny\nReminder: None\nCreated: 0\nUpdated: 0\n").data
          = ("Title: a").data ++ ('\n' :: []) ++
            ((("Content: x").data) ++ ('\n' :: []) ++
            ((("y").data) ++ ('\n' :: []) ++
            ((("Reminder: None").data) ++ ('\n' :: []) ++
            ((("Created: 0").data) ++ ('\n' :: []) ++
            ((("Updated: 0").data) ++ ('\n' :: []) ++ ([] : List Char)))))) := by decide
      rw [parseSection, if_pos (by decide), e2]
      rw [splitSepAux_chunk '\n' [] (("Title: a").data) _ (by decide)]
      rw [splitSepAux_chunk '\n' [] (("Content: x").data) _ (by decide)]
      rw [splitSepAux_chunk '\n' [] (("y").data) _ (by decide)]
      rw [splitSepAux_chunk '\n' [] (("Reminder: None").data) _ (by decide)]
      rw [splitSepAux_chunk '\n' [] (("Created: 0").data) _ (by decide)]
      rw [splitSepAux_chunk '\n' [] (("Updated: 0").data) _ (by decide)]
      rw [splitSepAux_nil]
      decide
    simp only [List.filterMap_cons, hh, hi, List.filterMap_nil]
  · decide

/-- Claim C3 (amended): for a non-empty collection whose notes have
single-line fields, trim-stable titles and contents, and no stray
`----------` separator inside a section or the header, the export-then-import
round trip is the identity on titles and contents: the parsed pairs equal the
collection's `(title, content)` pairs, and the import appends to the store
notes carrying exactly those titles and contents. -/
theorem C3_roundtrip_titles_contents (dts : Nat → List Char) (d : List Char)
    (notes store : List Note) (now : Nat) (idGen : Nat → Nat)
    (hne : notes ≠ [])
    (hhdr : sepFreeChunk '-' sepRest sepFull (exportHeader d) = true)
    (hsafe : ∀ n ∈ notes, exportSafeNote dts n = true) :
    importedPairs (exportContent dts d notes)
      = notes.map (fun n => (n.title, n.content)) ∧
    (importNotesFlat (exportContent dts d notes) now idGen store).map
        (fun n => (n.title, n.content))
      = store.map (fun n => (n.title, n.content))
        ++ notes.map (fun n => (n.title, n.content)) := by
  have hp := importedPairs_exportContent dts d notes hne hhdr hsafe
  refine ⟨hp, ?_⟩
  rw [importNotesFlat, importSaveLoop_appends, List.map_append,
      importedNotesList_map, hp]

/-- Claim C3 witness: the round-trip theorem at a concrete one-note
collection, with all side conditions discharged by evaluation. -/
theorem C3_roundtrip_titles_contents_witness :
    (∀ n ∈ [({ id := some 1, title := ("a").data, content := ("x").data,
               reminder := [], createdAt := some 5, updatedAt := 7 } : Note)],
       exportSafeNote (fun _ => ("0").data) n = true) ∧
    importedPairs
      (exportContent (fun _ => ("0").data) (("d").data)
        [{ id := some 1, title := ("a").data, content := ("x").data,
           reminder := [], createdAt := some 5, updatedAt := 7 }])
      = [((("a").data), (("x").data))] :=
  ⟨by decide,
   (C3_roundtrip_titles_contents (fun _ => ("0").data) (("d").data)
     [{ id := some 1, title := ("a").data, content := ("x").data,
        reminder := [], createdAt := some 5, updatedAt := 7 }]
     [] 9 (fun k => k) (by decide) (by decide) (by decide)).1⟩

/-- Claim C4: a `saveLink` whose url normalizes to an existing link's url
updates that record in place — its id and createdAt are kept, title, url and
updatedAt are overwritten, every other record is untouched — and the store's
size does not grow. -/
theorem C4_saveLink_upsert_in_place (t u : List Char) (newId now : Nat)
    (links : List Link) (ex : Link)
    (hfind : links.find? (fun l => l.url == formatURL u) = some ex)
    (hids : links.Pairwise (fun a b => a.id ≠ b.id)) :
    saveLinkFlat t u newId now links
      = (ex.id, links.map (fun l =>
          if l.id == ex.id then
            { id := ex.id, title := t, url := formatURL u,
              createdAt := ex.createdAt, updatedAt := now }
          else l)) ∧
    (saveLinkFlat t u newId now links).2.length = links.length := by
  have hmain : saveLinkFlat t u newId now links
      = (ex.id, links.map (fun l =>
          if l.id == ex.id then
            { id := ex.id, title := t, url := formatURL u,
              createdAt := ex.createdAt, updatedAt := now }
          else l)) := by
    have hset := setById_eq_map (fun l => l.url == formatURL u)
      ({ id := ex.id, title := t, url := formatURL u,
         createdAt := ex.createdAt, updatedAt := now }) links ex hfind hids
    cases hidx : findIdxL (fun l => l.id == ex.id) links with
    | none =>
      rw [hidx] at hset
      have hset' : links = links.map (fun l =>
          if l.id == ex.id then
            { id := ex.id, title := t, url := formatURL u,
              createdAt := ex.createdAt, updatedAt := now }
          else l) := hset
      simp only [saveLinkFlat, saveLinkToLocalStorage, hfind, hidx, Prod.mk.injEq]
      exact ⟨trivial, hset'⟩
    | some j =>
      rw [hidx] at hset
      have hset' : links.set j
          { id := ex.id, title := t, url := formatURL u,
            createdAt := ex.createdAt, updatedAt := now }
          = links.map (fun l =>
            if l.id == ex.id then
              { id := ex.id, title := t, url := formatURL u,
                createdAt := ex.createdAt, updatedAt := now }
            else l) := hset
      simp only [saveLinkFlat, saveLinkToLocalStorage, hfind, hidx, Prod.mk.injEq]
      exact ⟨trivial, hset'⟩
  refine ⟨hmain, ?_⟩
  rw [hmain]
  simp

/-- Claim C4 witness: saving url `a.com` against a store holding
`http://a.com` rewrites that record in place, keeping id 1 and createdAt 10. -/
theorem C4_saveLink_upsert_in_place_witness :
    (([{ id := some 1, title := ("t0").data, url := ("http://a.com").data,
         createdAt := some 10, updatedAt := 10 }] : List Link).find?
       (fun l => l.url == formatURL (("a.com").data))
      = some { id := some 1, title := ("t0").data, url := ("http://a.com").data,
               createdAt := some 10, updatedAt := 10 }) ∧
    saveLinkFlat (("t1").data) (("a.com").data) 99 20
      [{ id := some 1, title := ("t0").data, url := ("http://a.com").data,
         createdAt := some 10, updatedAt := 10 }]
      = (some 1,
         [{ id := some 1, title := ("t1").data, url := ("http://a.com").data,
            createdAt := some 10, updatedAt := 20 }]) :=
  ⟨by decide,
   (C4_saveLink_upsert_in_place (("t1").data) (("a.com").data) 99 20
     [{ id := some 1, title := ("t0").data, url := ("http://a.com").data,
        createdAt := some 10, updatedAt := 10 }]
     { id := some 1, title := ("t0").data, url := ("http://a.com").data,
       createdAt := some 10, updatedAt := 10 }
     (by decide) (by simp)).1⟩

theorem saveLinkToLocalStorage_url_mem (link : Link) (newId now : Nat)
    (links : List Link) (hid : link.id = none) :
    ∃ l ∈ (saveLinkToLocalStorage link newId now links).2, l.url = link.url := by
  cases hfind : links.find? (fun l => l.url == link.url) with
  | none =>
    simp only [saveLinkToLocalStorage, hid, hfind]
    exact ⟨{ link with id := some newId, createdAt := some now }, by simp, rfl⟩
  | some ex =>
    have hmem : ex ∈ links := List.mem_of_find?_eq_some hfind
    obtain ⟨j, hj⟩ := findIdxL_isSome_of_mem
      (fun l => l.id == ex.id) links ex hmem (by simp)
    simp only [saveLinkToLocalStorage, hid, hfind, hj]
    exact ⟨_, mem_set_self links j _ (findIdxL_lt_length _ _ _ hj), rfl⟩

theorem saveLinkFlat_url_mem (t u : List Char) (newId now : Nat)
    (links : List Link) :
    ∃ l ∈ (saveLinkFlat t u newId now links).2, l.url = formatURL u :=
  saveLinkToLocalStorage_url_mem _ newId now links rfl

theorem saveLinkIDB_url_mem (t u : List Char) (newKey now : Nat)
    (links : List Link) :
    ∃ l ∈ saveLinkIDB t u newKey now links, l.url = formatURL u := by
  cases hfind : links.find? (fun l => l.url == formatURL u) with
  | none =>
    simp only [saveLinkIDB, hfind]
    exact ⟨{ id := some newKey, title := t, url := formatURL u,
             createdAt := some now, updatedAt := now }, by simp, rfl⟩
  | some ex =>
    have hmem : ex ∈ links := List.mem_of_find?_eq_some hfind
    obtain ⟨j, hj⟩ := findIdxL_isSome_of_mem
      (fun l => l.id == ex.id) links ex hmem (by simp)
    simp only [saveLinkIDB, hfind, hj]
    exact ⟨_, mem_set_self links j _ (findIdxL_lt_length _ _ _ hj), rfl⟩

theorem saveNoteFlat_content_mem (title content rem : List Char)
    (cur : Option Nat) (newId now : Nat) (notes : List Note)
    (hcur : cur = none ∨ ∃ n ∈ notes, (n.id == cur) = true) :
    ∃ n ∈ (saveNoteFlat title content rem cur newId now notes).2,
      n.content = content := by
  cases cur with
  | none =>
    simp only [saveNoteFlat, saveNoteToLocalStorage]
    exact ⟨{ id := some newId, title := title, content := content, reminder := rem,
             createdAt := some now, updatedAt := now }, by simp, rfl⟩
  | some i =>
    rcases hcur with h | ⟨n, hn, hni⟩
    · simp at h
    · obtain ⟨j, hj⟩ := findIdxL_isSome_of_mem (fun m => m.id == some i) notes n hn hni
      simp only [saveNoteFlat, saveNoteToLocalStorage, hj]
      exact ⟨_, mem_set_self notes j _ (findIdxL_lt_length _ _ _ hj), rfl⟩

theorem saveNoteIDB_content_mem (title content rem : List Char)
    (cur : Option Nat) (newKey now : Nat) (notes : List Note) :
    ∃ n ∈ (saveNoteIDB title content rem cur newKey now notes).2,
      n.content = content := by
  cases cur with
  | none =>
    simp only [saveNoteIDB]
    exact ⟨{ id := some newKey, title := title, content := content, reminder := rem,
             createdAt := some now, updatedAt := now }, by simp, rfl⟩
  | some i =>
    cases hidx : findIdxL (fun n => n.id == some i) notes with
    | none =>
      simp only [saveNoteIDB, putNoteIDB, hidx]
      exact ⟨{ id := some i, title := title, content := content, reminder := rem,
               createdAt := none, updatedAt := now }, by simp, rfl⟩
    | some j =>
      simp only [saveNoteIDB, putNoteIDB, hidx]
      exact ⟨_, mem_set_self notes j _ (findIdxL_lt_length _ _ _ hidx), rfl⟩

/-- Claim C10: with no link selected (and the database initialized, the
selected-note id valid when present), `saveNoteOrLink` stores the trimmed
content as a Link exactly when `isURL` accepts it; `isURL`'s host grammar is
the dotted-IPv4 pattern only, so domain-name contents such as `example.com`
or `https://example.com` fail it and are stored as a Note instead. -/
theorem C10_route_by_isURL (titleRaw contentRaw reminderVal : List Char)
    (newId now : Nat) (s : AppState)
    (hdb : s.dbInitialized = true) (hlink : s.currentLinkId = none)
    (hne : ((trimL titleRaw).isEmpty && (trimL contentRaw).isEmpty) = false)
    (hcur : s.currentNoteId = none ∨ ∃ n ∈ s.notes, (n.id == s.currentNoteId) = true) :
    (isURL (trimL contentRaw) = true →
      ((saveNoteOrLink titleRaw contentRaw reminderVal newId now s).1.notes = s.notes ∧
       ∃ l ∈ (saveNoteOrLink titleRaw contentRaw reminderVal newId now s).1.links,
         l.url = formatURL (trimL contentRaw))) ∧
    (isURL (trimL contentRaw) = false →
      ((saveNoteOrLink titleRaw contentRaw reminderVal newId now s).1.links = s.links ∧
       ∃ n ∈ (saveNoteOrLink titleRaw contentRaw reminderVal newId now s).1.notes,
         n.content = trimL contentRaw)) ∧
    isURL (("example.com").data) = false ∧
    isURL (("https://example.com").data) = false ∧
    isURL (("1.2.3.4").data) = true ∧
    isURL (("1.2.3.com").data) = false ∧
    isURL (("256.1.1.1").data) = false := by
  refine ⟨?_, ?_, by decide, by decide, by decide, by decide, by decide⟩
  · intro hurl
    simp only [saveNoteOrLink, hdb, hlink, hne, hurl, Bool.not_true, Bool.false_eq_true,
      if_false, if_true]
    by_cases hfb : s.useLocalStorageFallback = true
    · simp only [hfb, if_true]
      exact ⟨trivial, saveLinkFlat_url_mem _ _ newId now s.links⟩
    · simp only [Bool.not_eq_true] at hfb
      simp only [hfb, Bool.false_eq_true, if_false]
      exact ⟨trivial, saveLinkIDB_url_mem _ _ newId now s.links⟩
  · intro hurl
    simp only [saveNoteOrLink, hdb, hlink, hne, hurl, Bool.not_true, Bool.false_eq_true,
      if_false, if_true]
    by_cases hfb : s.useLocalStorageFallback = true
    · simp only [hfb, if_true]
      exact ⟨trivial, saveNoteFlat_content_mem _ _ _ _ newId now s.notes hcur⟩
    · simp only [Bool.not_eq_true] at hfb
      simp only [hfb, Bool.false_eq_true, if_false]
      exact ⟨trivial, saveNoteIDB_content_mem _ _ _ _ newId now s.notes⟩

/-- Claim C10 witness: saving content `example.com` with no selection stores
a note with that content (and no link), since its host is a domain name. -/
theorem C10_route_by_isURL_witness :
    isURL (trimL (("example.com").data)) = false ∧
    ∃ n ∈ (saveNoteOrLink (("T").data) (("example.com").data) [] 7 9
            { dbInitialized := true, useLocalStorageFallback := false,
              currentNoteId := none, currentLinkId := none,
              notes := [], links := [] }).1.notes,
      n.content = trimL (("example.com").data) :=
  ⟨by decide,
   ((C10_route_by_isURL (("T").data) (("example.com").data) [] 7 9
      { dbInitialized := true, useLocalStorageFallback := false,
        currentNoteId := none, currentLinkId := none,
        notes := [], links := [] }
      (by decide) (by decide) (by decide) (Or.inl (by decide))).2.1 (by decide)).2⟩

end GlassNote
